import Mathlib

/-!
Verification of the hca-revenue-guardian reconciliation core.

The development shallowly embeds the program's core modules:
  * `src/utils.py`        : `normalize_text`, `validate_dataframe`,
                            `calculate_financial_metrics`
  * `src/config.py`       : thresholds, risk-level names, column mappings
  * `src/reconciliation_engine.py` : `ReconciliationEngine.classify_risk`,
                            `fuzzy_match_item`, `reconcile`,
                            `generate_summary_stats`

Modelling conventions:
  * Python strings are Lean `String` (a list of unicode code points); Python's
    `str.lower` is modelled by `pyLowerChar`, which lower-cases exactly the
    ASCII range.  Python lower-cases a handful of non-ASCII letters as well,
    but every such letter (and its lower-case image, with the single exotic
    exception of U+212A) falls outside the kept class `[a-z0-9\s]` and is
    replaced by a space either way, so the two agree on the normalizer's
    output.
  * Python's whitespace class is modelled by the six ASCII whitespace
    characters.  Non-ASCII whitespace is kept by the regex `[^a-z0-9\s]` and
    then collapsed by `str.split`; in the model it is substituted by a space
    and then collapsed — the composed transforms agree on every input.
  * Dynamic cell values are `PyVal`.  Numeric cells carry exact rationals;
    Python float arithmetic and float `repr` are not modelled (no claim
    depends on them), so `pyStr` of a numeric cell renders the rational
    exactly.
  * pandas DataFrames are a column-name list plus a list of rows, each row a
    total function from column names to cell values (in pandas every row of a
    frame has every column of the frame).
  * Python exceptions are `Except String`; raising is returning `.error`.
  * The engine object's only state is `match_threshold`, which `reconcile`
    never writes; it is therefore passed as an explicit parameter and
    state-preservation of a failed call is purity of the embedding.
-/

/-! ### Text normalizer (src/utils.py, normalize_text) -/

/-- The six ASCII whitespace characters — Python's `\s` (see the modelling
note on non-ASCII whitespace above). -/
def isWsChar (c : Char) : Bool :=
  c == ' ' || c == '\t' || c == '\n' || c == '\r' || c == '\x0b' || c == '\x0c'

/-- Characters kept by the regex class `[a-z0-9\s]` of
`re.sub(r'[^a-z0-9\s]', ' ', text)`. -/
def keepChar (c : Char) : Bool :=
  (decide ('a' ≤ c) && decide (c ≤ 'z')) ||
  (decide ('0' ≤ c) && decide (c ≤ '9')) ||
  isWsChar c

/-- One character of `re.sub(r'[^a-z0-9\s]', ' ', text)`: a character outside
the kept class becomes a single space. -/
def subChar (c : Char) : Char :=
  if keepChar c then c else ' '

/-- One character of Python `str.lower`: lower-case the ASCII upper-case
range (see the modelling note on non-ASCII letters above). -/
def pyLowerChar (c : Char) : Char :=
  if decide ('A' ≤ c) && decide (c ≤ 'Z') then Char.ofNat (c.toNat + 32) else c

/-- Python `str.split()` (no separator argument): split on runs of
whitespace, discarding empty pieces.  `acc` holds the characters of the token
currently being read, in reverse. -/
def splitAux : List Char → List Char → List (List Char)
  | [], acc => if acc.isEmpty then [] else [acc.reverse]
  | c :: cs, acc =>
    if isWsChar c then
      if acc.isEmpty then splitAux cs [] else acc.reverse :: splitAux cs []
    else
      splitAux cs (c :: acc)

/-- Python `text.split()`. -/
def pySplit (l : List Char) : List (List Char) :=
  splitAux l []

/-- Python `' '.join(tokens)`. -/
def joinTok : List (List Char) → List Char
  | [] => []
  | [t] => t
  | t :: t' :: ts => t ++ ' ' :: joinTok (t' :: ts)

/-- The body of `normalize_text` on a string: lower-case, substitute
characters outside `[a-z0-9\s]` by a space, then `' '.join(text.split())`. -/
def normChars (l : List Char) : List Char :=
  joinTok (pySplit ((l.map pyLowerChar).map subChar))

/-- A dynamic Python value, as found in a DataFrame cell or passed to
`normalize_text`. -/
inductive PyVal where
  | str (s : String)
  | num (q : Rat)
  | int (n : Int)
  | bool (b : Bool)
deriving DecidableEq

/-- Python `str(x)` for the embedded values.  `str` of a numeric cell renders
the exact rational (Python float `repr` is not modelled; no claim evaluates
this branch on a non-integral value). -/
def pyStr : PyVal → String
  | .str s => s
  | .int n => toString n
  | .bool b => if b then "True" else "False"
  | .num q => if q.den = 1 then toString q.num ++ ".0"
              else toString q.num ++ "/" ++ toString q.den

/-- `utils.normalize_text`.  Note the early return: a non-string input is
stringified and returned *without* the lower-case/substitute/collapse
transform. -/
def normalize_text (text : PyVal) : String :=
  match text with
  | .str s => String.mk (normChars s.data)
  | v => pyStr v

/-! Spec-side formulation of the normalizer transform, used to check the
description "replaces every character outside lowercase a-z, digits 0-9 and
whitespace with a single space, collapses consecutive whitespace into one
space, and trims both ends" against the code's `' '.join(text.split())`. -/

/-- Collapse every run of consecutive whitespace characters into one space
(the spec's "collapses consecutive whitespace into one space"). -/
def collapseWs : List Char → List Char
  | [] => []
  | [c] => [if isWsChar c then ' ' else c]
  | c :: c' :: cs =>
    if isWsChar c && isWsChar c' then collapseWs (c' :: cs)
    else (if isWsChar c then ' ' else c) :: collapseWs (c' :: cs)

/-- Trim leading whitespace. -/
def ltrim (l : List Char) : List Char :=
  l.dropWhile isWsChar

/-- Trim trailing whitespace: keep a character unless it is whitespace and
everything after it trims to nothing. -/
def rtrim : List Char → List Char
  | [] => []
  | c :: cs => if rtrim cs = [] && isWsChar c then [] else c :: rtrim cs

/-- The normalizer as the spec describes it: lower-case, substitute, collapse
whitespace runs to one space, trim both ends. -/
def spec_normalize (s : String) : String :=
  String.mk (rtrim (ltrim (collapseWs ((s.data.map pyLowerChar).map subChar))))

/-! Canonical mutual-recursive form of collapse-and-trim, the bridge between
`' '.join(text.split())` and `spec_normalize`. -/

mutual

/-- Collapsed/trimmed text when no token has been emitted yet (nothing is
pending, leading whitespace is dropped). -/
def canonStart : List Char → List Char
  | [] => []
  | c :: cs => if isWsChar c then canonStart cs else c :: canonTok cs

/-- Collapsed/trimmed text while inside a token: a whitespace run becomes one
separating space only if another token follows. -/
def canonTok : List Char → List Char
  | [] => []
  | c :: cs =>
    if isWsChar c then
      match canonStart cs with
      | [] => []
      | r => ' ' :: r
    else c :: canonTok cs

end

/-! ### Configuration (src/config.py) -/

def DEFAULT_MATCH_THRESHOLD : Int := 70

def HIGH_CONFIDENCE_THRESHOLD : Int := 90

/-- `RISK_LEVELS["HIGH"]`. -/
def RISK_LEVELS_HIGH : String := "High"

/-- `RISK_LEVELS["MEDIUM"]`. -/
def RISK_LEVELS_MEDIUM : String := "Medium"

/-- `RISK_LEVELS["LOW"]`. -/
def RISK_LEVELS_LOW : String := "Low"

/-- `INVOICE_COLUMNS["po_number"]`. -/
def INVOICE_PO : String := "PO_Number"

/-- `INVOICE_COLUMNS["vendor_item"]`. -/
def INVOICE_ITEM : String := "Vendor_Item_Name"

/-- `INVOICE_COLUMNS["unit_cost"]`. -/
def INVOICE_COST : String := "Unit_Cost"

/-- `CLINICAL_COLUMNS["clinical_item"]`. -/
def CLINICAL_ITEM : String := "Clinical_Item_Desc"

/-! ### Risk classifier (ReconciliationEngine.classify_risk) -/

/-- `ReconciliationEngine.classify_risk`.  `match_threshold` is the engine's
only state, set at construction. -/
def classify_risk (match_threshold : Int) (match_score : Int) : String × String :=
  if match_score ≥ HIGH_CONFIDENCE_THRESHOLD then ("✅ Match Found", RISK_LEVELS_LOW)
  else if match_score ≥ match_threshold then ("⚠️ Review Required", RISK_LEVELS_MEDIUM)
  else ("❌ REVENUE LEAKAGE", RISK_LEVELS_HIGH)

/-! ### The scorer (`thefuzz`'s `fuzz.token_sort_ratio`)

`token_sort_ratio` splits each string on whitespace, sorts the tokens
lexicographically, joins them with single spaces and applies the
indel-similarity ratio `100 * 2*lcs / (len a + len b)`, rounded half-to-even
(the library computes the ratio in floating point, but every exact half is a
dyadic rational, hence exact in binary, and all other values are far enough
from a half that the float rounding agrees with the exact one).  `thefuzz`'s
`full_process` pre-processing is the identity on outputs of `normalize_text`
(they consist of `[a-z0-9]` and single interior spaces only), so it is
dropped from the model. -/

/-- Lexicographic (code-point) order on token character lists — Python `<=`
on strings. -/
def lexLe : List Char → List Char → Bool
  | [], _ => true
  | _ :: _, [] => false
  | a :: as, b :: bs => if a = b then lexLe as bs else decide (a < b)

/-- Insert into a lexicographically sorted token list. -/
def insertLex (x : List Char) : List (List Char) → List (List Char)
  | [] => [x]
  | y :: ys => if lexLe x y then x :: y :: ys else y :: insertLex x ys

/-- Python `sorted(tokens)` (insertion sort; stability matches CPython's
stable sort, and equal tokens are identical strings anyway). -/
def sortLex : List (List Char) → List (List Char)
  | [] => []
  | x :: xs => insertLex x (sortLex xs)

/-- One row-update of the longest-common-subsequence dynamic program:
`diag` is the entry above-left, `left` the entry just written. -/
def lcsStepGo (c : Char) : List Char → List Nat → Nat → Nat → List Nat
  | [], _, _, _ => []
  | _ :: _, [], _, _ => []
  | bj :: bs, rj :: rs, diag, left =>
    let v := if bj = c then diag + 1 else max left rj
    v :: lcsStepGo c bs rs rj v

/-- Extend the LCS row by one character of the first string. -/
def lcsStep (c : Char) (b : List Char) (row : List Nat) : List Nat :=
  match row with
  | [] => [0]
  | r0 :: rs => 0 :: lcsStepGo c b rs r0 0

/-- Length of a longest common subsequence, by the standard row dynamic
program. -/
def lcsLen (a b : List Char) : Nat :=
  ((a.foldl (fun row c => lcsStep c b row) (List.replicate (b.length + 1) 0)).getLast?).getD 0

/-- `round(num/den)` with Python's half-to-even rounding (`den > 0`). -/
def roundHalfEven (num den : Nat) : Nat :=
  let q := num / den
  let r := num % den
  if den < 2 * r then q + 1
  else if 2 * r < den then q
  else if q % 2 = 0 then q else q + 1

/-- The indel similarity `100 * 2*lcs/(|a|+|b|)` used by `fuzz.ratio`
(similarity of two empty strings is 100). -/
def indelSim (a b : List Char) : Nat :=
  let d := a.length + b.length
  if d = 0 then 100 else roundHalfEven (200 * lcsLen a b) d

/-- Whitespace-split, lexicographically sort, space-join. -/
def sortJoin (l : List Char) : List Char :=
  joinTok (sortLex (pySplit l))

/-- `fuzz.token_sort_ratio` (the scorer name in the source; renamed here). -/
def token_sort_score (a b : String) : Nat :=
  indelSim (sortJoin a.data) (sortJoin b.data)

/-! ### Matcher (ReconciliationEngine.fuzzy_match_item) -/

/-- `thefuzz.process.extractOne` with `score_cutoff=0`: scan the choices in
order keeping the best score, a later choice winning only with a strictly
greater score (on ties the first maximiser is returned); `none` exactly when
there are no choices. -/
def extractOne (scorer : String → String → Nat) (query : String) :
    List String → Option (String × Nat)
  | [] => none
  | c :: cs =>
    match extractOne scorer query cs with
    | none => some (c, scorer query c)
    | some (b, bs) =>
      if scorer query c < bs then some (b, bs) else some (c, scorer query c)

/-- Python `list.index`: index of the first occurrence (total here; in the
engine it is only applied to a member of the list). -/
def listIndex (x : String) : List String → Nat
  | [] => 0
  | y :: ys => if y = x then 0 else listIndex x ys + 1

/-- The engine's sentinel for an empty candidate set. -/
def NONE_SENTINEL : String := "No Match Found"

/-- `ReconciliationEngine.fuzzy_match_item`.  The scorer is a parameter with
default `fuzz.token_sort_ratio`, exactly as in the source.  The returned
match is `clinical_items[normalized_clinical.index(best)]` — the original,
non-normalized candidate.  The `getD` default is unreachable: the extracted
best is always a member of `normalized_clinical`. -/
def fuzzy_match_item (scorer : String → String → Nat)
    (vendor_item : PyVal) (clinical_items : List PyVal) : PyVal × Nat :=
  let normalized_vendor := normalize_text vendor_item
  let normalized_clinical := clinical_items.map normalize_text
  match extractOne scorer normalized_vendor normalized_clinical with
  | some (best, score) =>
    (clinical_items.getD (listIndex best normalized_clinical) (.str ""), score)
  | none => (.str NONE_SENTINEL, 0)

/-! ### DataFrames and validation (src/utils.py, validate_dataframe) -/

/-- A pandas DataFrame: the column names, and the rows, each row a total map
from column names to cells.  `df.empty` is "either axis has length 0". -/
structure DataFrame where
  cols : List String
  rows : List (String → PyVal)

/-- Python `', '.join(items)`. -/
def joinComma : List String → String
  | [] => ""
  | [x] => x
  | x :: x' :: xs => x ++ ", " ++ joinComma (x' :: xs)

/-- `utils.validate_dataframe`.  Python computes the missing columns as
`set(required_columns) - set(df.columns)`, whose iteration order is
unspecified; the model lists them in `required_columns` order.  Every
property proved about the message is order-independent. -/
def validate_dataframe (df : DataFrame) (required_columns : List String) :
    Bool × Option String :=
  if df.rows.isEmpty || df.cols.isEmpty then
    (false, some "DataFrame is empty")
  else
    let missing := required_columns.filter (fun c => !(df.cols.contains c))
    if missing.isEmpty then (true, none)
    else (false, some ("Missing required columns: " ++ joinComma missing))

/-! ### Reconciliation (ReconciliationEngine.reconcile) -/

/-- One output row of `reconcile`.  `Unit_Cost` is the currency-formatted
display string `f"${...:,.2f}"` built by the loop; `Cost_At_Risk` carries the
raw value. -/
structure ResultRow where
  PO_Number : PyVal
  Vendor_Item : PyVal
  Clinical_Match : PyVal
  Confidence_Score : String
  Confidence_Score_Numeric : Nat
  Unit_Cost : String
  Cost_At_Risk : PyVal
  Status : String
  Risk_Level : String
deriving DecidableEq

/-- Thousands grouping of the `,` format flag, over the decimal digits in
least-significant-first order (`k` counts digits emitted since the last
separator). -/
def groupRev : List Char → Nat → List Char
  | [], _ => []
  | d :: ds, k =>
    if k == 3 then ',' :: d :: groupRev ds 1
    else d :: groupRev ds (k + 1)

/-- Python `format(x, ',.2f')` on a numeric value, modelled on the exact
rational: round to cents half-to-even, group the integer digits by
thousands, two decimal places.  (Python rounds the binary float, which on a
value whose exact form is a decimal half can differ in the last cent; cost
cells are modelled as exact rationals throughout and no claim evaluates the
display string.) -/
def formatTwoDecComma (q : Rat) : String :=
  let a : Rat := if q < 0 then -q else q
  let cents := roundHalfEven (100 * a.num.toNat) a.den
  let dollars := cents / 100
  let rem := cents % 100
  (if q < 0 then "-" else "") ++
    String.mk ((groupRev (toString dollars).data.reverse 0).reverse) ++ "." ++
    (if rem < 10 then "0" ++ toString rem else toString rem)

/-- The loop's `f"${row['Unit_Cost']:,.2f}"`: formatting a numeric cell
(bools format as ints) succeeds, a string cell raises `ValueError` (format
code f is invalid for a str). -/
def formatUnitCost : PyVal → Except String String
  | .str _ => .error "ValueError"
  | .num q => .ok ("$" ++ formatTwoDecComma q)
  | .int n => .ok ("$" ++ formatTwoDecComma (n : Rat))
  | .bool b => .ok ("$" ++ formatTwoDecComma (if b then 1 else 0))

/-- The body of `reconcile`'s per-invoice-row loop: matching, classification
and the result record, whose `Unit_Cost` formatting can raise. -/
def row_result (match_threshold : Int) (clinical_descriptions : List PyVal)
    (row : String → PyVal) : Except String ResultRow := do
  let vendor_item := row INVOICE_ITEM
  let m := fuzzy_match_item token_sort_score vendor_item clinical_descriptions
  let c := classify_risk match_threshold (m.2 : Int)
  let unit_cost_display ← formatUnitCost (row INVOICE_COST)
  pure ⟨row INVOICE_PO, vendor_item, m.1, toString m.2 ++ "%", m.2,
    unit_cost_display, row INVOICE_COST, c.1, c.2⟩

/-- The invoice columns `reconcile` requires. -/
def invoice_required : List String := [INVOICE_PO, INVOICE_ITEM, INVOICE_COST]

/-- The clinical columns `reconcile` requires. -/
def clinical_required : List String := [CLINICAL_ITEM]

/-- The `for index, row in df_invoice.iterrows()` loop: rows in order, the
first raising row aborting the whole call (no partial results escape). -/
def reconcile_loop (match_threshold : Int) (clinical_descriptions : List PyVal) :
    List (String → PyVal) → Except String (List ResultRow)
  | [] => .ok []
  | row :: rows => do
    let r ← row_result match_threshold clinical_descriptions row
    let rest ← reconcile_loop match_threshold clinical_descriptions rows
    pure (r :: rest)

/-- `ReconciliationEngine.reconcile`: validate both inputs (raising
`ValueError` — `.error` here — before any matching work), then run the
matching/classification loop over the invoice rows in order. -/
def reconcile (match_threshold : Int) (df_invoice df_clinical : DataFrame) :
    Except String (List ResultRow) :=
  let iv := validate_dataframe df_invoice invoice_required
  if iv.1 = false then
    .error ("Invalid invoice data: " ++ iv.2.getD "")
  else
    let cv := validate_dataframe df_clinical clinical_required
    if cv.1 = false then
      .error ("Invalid clinical data: " ++ cv.2.getD "")
    else
      let clinical_descriptions := df_clinical.rows.map (fun r => r CLINICAL_ITEM)
      reconcile_loop match_threshold clinical_descriptions df_invoice.rows

/-! ### Summary statistics (ReconciliationEngine.generate_summary_stats) -/

/-- The numeric value of a cell for pandas aggregation (`None` for a string
cell, on which `sum`/`mean` raise `TypeError`; booleans aggregate as 0/1). -/
def cellRat : PyVal → Option Rat
  | .num q => some q
  | .int n => some (n : Rat)
  | .bool b => some (if b then 1 else 0)
  | .str _ => none

/-- pandas `Series.sum` followed by the `mean` type check: `some` of the sum
when every value is numeric, `none` (a raised `TypeError`) when any value is
a string.  (For an all-string column the `TypeError` is raised by `mean`
rather than `sum`, but `generate_summary_stats` always evaluates both on a
non-empty group, so the whole call raises either way.) -/
def sumVals : List PyVal → Option Rat
  | [] => some 0
  | v :: vs =>
    match cellRat v, sumVals vs with
    | some q, some s => some (q + s)
    | _, _ => none

/-- Total of a list of cells with string cells counted as 0 — the value
`sumVals` takes when it does not raise. -/
def sumValsD (vals : List PyVal) : Rat :=
  vals.foldr (fun v a => (cellRat v).getD 0 + a) 0

/-- One entry of the summary dictionary. -/
structure SummaryEntry where
  count : Nat
  total_amount : Rat
  avg_amount : Rat
deriving DecidableEq

/-- The body of `generate_summary_stats`'s per-tier loop: filter the results
to the tier, then count / sum / guarded mean over `Cost_At_Risk`. -/
def tierEntry (df_results : List ResultRow) (risk_level : String) :
    Except String SummaryEntry :=
  let filtered := df_results.filter (fun r => decide (r.Risk_Level = risk_level))
  match sumVals (filtered.map (fun r => r.Cost_At_Risk)) with
  | none => .error "TypeError"
  | some total =>
    .ok ⟨filtered.length, total,
         if 0 < filtered.length then total / (filtered.length : Rat) else 0⟩

/-- The entry `tierEntry` produces when it does not raise (count, total and
guarded mean of the tier's filtered rows). -/
def tierEntryVal (df_results : List ResultRow) (risk_level : String) : SummaryEntry :=
  ⟨(df_results.filter (fun r => decide (r.Risk_Level = risk_level))).length,
   sumValsD ((df_results.filter (fun r => decide (r.Risk_Level = risk_level))).map
     (fun r => r.Cost_At_Risk)),
   if 0 < (df_results.filter (fun r => decide (r.Risk_Level = risk_level))).length then
     sumValsD ((df_results.filter (fun r => decide (r.Risk_Level = risk_level))).map
       (fun r => r.Cost_At_Risk)) /
       ((df_results.filter (fun r => decide (r.Risk_Level = risk_level))).length : Rat)
   else 0⟩

/-- `ReconciliationEngine.generate_summary_stats`: one entry per risk level,
inserted in the order High, Medium, Low.  The function has no exception
handler — a `TypeError` from pandas propagates to the caller. -/
def generate_summary_stats (df_results : List ResultRow) :
    Except String (List (String × SummaryEntry)) := do
  let h ← tierEntry df_results RISK_LEVELS_HIGH
  let m ← tierEntry df_results RISK_LEVELS_MEDIUM
  let l ← tierEntry df_results RISK_LEVELS_LOW
  pure [(RISK_LEVELS_HIGH, h), (RISK_LEVELS_MEDIUM, m), (RISK_LEVELS_LOW, l)]

/-! ### Financial metrics (src/utils.py, calculate_financial_metrics) -/

/-- The metrics dictionary of `calculate_financial_metrics`.  `average_amount`
is `none` when pandas would produce `NaN` (mean of an empty column). -/
structure FinMetrics where
  total_amount : Rat
  count : Nat
  average_amount : Option Rat
deriving DecidableEq

/-- `utils.calculate_financial_metrics`: sum/count/mean of a cost column,
with the whole body wrapped in `try/except` — a missing column (`KeyError`)
or non-numeric data (`TypeError`) degrades to the zero-valued dictionary. -/
def calculate_financial_metrics (df : DataFrame) (cost_column : String) :
    FinMetrics :=
  if !(df.cols.contains cost_column) then ⟨0, 0, some 0⟩
  else
    match sumVals (df.rows.map (fun r => r cost_column)) with
    | none => ⟨0, 0, some 0⟩
    | some total =>
      ⟨total, df.rows.length,
       if 0 < df.rows.length then some (total / (df.rows.length : Rat)) else none⟩

/-- Substring containment on strings ("the message names the column"). -/
def strMentions (needle hay : String) : Prop :=
  ∃ p q, hay.data = p ++ needle.data ++ q

/-! ## Claims about the risk classifier -/

/-- C1: for every integer score, `classify_risk` returns the "match found"
status with tier Low when `score ≥ 90` (`HIGH_CONFIDENCE_THRESHOLD`,
inclusive), otherwise the "review required" status with tier Medium when
`score ≥ match_threshold`, otherwise the "revenue leakage" status with tier
High — the branches tested in that order. -/
theorem classify_risk_branches (t s : Int) :
    (90 ≤ s → classify_risk t s = ("✅ Match Found", RISK_LEVELS_LOW)) ∧
    (s < 90 → t ≤ s → classify_risk t s = ("⚠️ Review Required", RISK_LEVELS_MEDIUM)) ∧
    (s < 90 → s < t → classify_risk t s = ("❌ REVENUE LEAKAGE", RISK_LEVELS_HIGH)) := by
  unfold classify_risk HIGH_CONFIDENCE_THRESHOLD
  refine ⟨fun h => ?_, fun h1 h2 => ?_, fun h1 h2 => ?_⟩
  · rw [if_pos (by omega)]
  · rw [if_neg (by omega), if_pos (by omega)]
  · rw [if_neg (by omega), if_neg (by omega)]

/-- Witness for C1 at the spec's example scores, including the inclusive
boundary `classify(90, 90, 70)`. -/
theorem classify_risk_branches_witness :
    ((90 : Int) ≤ 90 ∧ classify_risk 70 90 = ("✅ Match Found", RISK_LEVELS_LOW)) ∧
    ((75 : Int) < 90 ∧ (70 : Int) ≤ 75 ∧
      classify_risk 70 75 = ("⚠️ Review Required", RISK_LEVELS_MEDIUM)) ∧
    ((50 : Int) < 90 ∧ (50 : Int) < 70 ∧
      classify_risk 70 50 = ("❌ REVENUE LEAKAGE", RISK_LEVELS_HIGH)) :=
  ⟨⟨by decide, (classify_risk_branches 70 90).1 (by decide)⟩,
   ⟨by decide, by decide, (classify_risk_branches 70 75).2.1 (by decide) (by decide)⟩,
   ⟨by decide, by decide, (classify_risk_branches 70 50).2.2 (by decide) (by decide)⟩⟩

/-- C10: because the high-confidence branch is tested first, the Medium tier
is returned iff `match_threshold ≤ score < 90`; in particular when
`match_threshold ≥ 90` the Medium tier is unreachable for every score. -/
theorem classify_risk_medium_iff (t s : Int) :
    ((classify_risk t s).2 = RISK_LEVELS_MEDIUM ↔ t ≤ s ∧ s < 90) ∧
    (90 ≤ t → (classify_risk t s).2 ≠ RISK_LEVELS_MEDIUM) := by
  have key : (classify_risk t s).2 = RISK_LEVELS_MEDIUM ↔ t ≤ s ∧ s < 90 := by
    unfold classify_risk HIGH_CONFIDENCE_THRESHOLD RISK_LEVELS_LOW RISK_LEVELS_MEDIUM RISK_LEVELS_HIGH
    split_ifs with h1 h2
    · constructor
      · intro h; exact absurd h (by decide)
      · intro h; omega
    · constructor
      · intro _; omega
      · intro _; rfl
    · constructor
      · intro h; exact absurd h (by decide)
      · intro h; omega
  exact ⟨key, fun ht h => by have := key.mp h; omega⟩

/-- Witness for C10: with an inverted configuration (`match_threshold = 95`)
even a score of 92 is not Medium. -/
theorem classify_risk_medium_iff_witness :
    (90 : Int) ≤ 95 ∧ (classify_risk 95 92).2 ≠ RISK_LEVELS_MEDIUM :=
  ⟨by decide, (classify_risk_medium_iff 95 92).2 (by decide)⟩

/-- C9: for every scorer and query, an empty candidate list makes
`fuzzy_match_item` return the none-sentinel with score 0, and with any
positive configured threshold (the UI exposes 60–95) `classify_risk` puts
that score in the High tier (revenue leakage). -/
theorem fuzzy_match_empty_high_risk (scorer : String → String → Nat)
    (q : PyVal) (t : Int) (ht : 0 < t) :
    fuzzy_match_item scorer q [] = (.str NONE_SENTINEL, 0) ∧
    classify_risk t ((fuzzy_match_item scorer q []).2 : Int) =
      ("❌ REVENUE LEAKAGE", RISK_LEVELS_HIGH) := by
  refine ⟨rfl, ?_⟩
  show classify_risk t ((0 : Nat) : Int) = _
  unfold classify_risk HIGH_CONFIDENCE_THRESHOLD
  rw [if_neg (by omega), if_neg (by simpa using ht)]

/-- Witness for C9 at the default threshold 70. -/
theorem fuzzy_match_empty_high_risk_witness :
    (0 : Int) < 70 ∧
    (fuzzy_match_item token_sort_score (.str "Stryker Knee") [] = (.str NONE_SENTINEL, 0) ∧
      classify_risk 70 ((fuzzy_match_item token_sort_score (.str "Stryker Knee") []).2 : Int) =
        ("❌ REVENUE LEAKAGE", RISK_LEVELS_HIGH)) :=
  ⟨by decide, fuzzy_match_empty_high_risk token_sort_score (.str "Stryker Knee") 70 (by decide)⟩

/-! ## Claims about error degradation in the statistics helpers -/

/-- pandas raises on aggregating a column containing a string value. -/
theorem sumVals_none_of_mem (vals : List PyVal) (h : ∃ v ∈ vals, cellRat v = none) :
    sumVals vals = none := by
  induction vals with
  | nil => obtain ⟨v, hv, _⟩ := h; exact absurd hv (List.not_mem_nil v)
  | cons v vs ih =>
    obtain ⟨w, hw, hcw⟩ := h
    rcases List.mem_cons.mp hw with rfl | hw'
    · unfold sumVals; rw [hcw]
    · unfold sumVals; rw [ih ⟨w, hw', hcw⟩]; cases cellRat v <;> rfl

/-- C8 (amended): the zero-degradation lives in
`utils.calculate_financial_metrics` — a missing cost column (`KeyError`) or a
non-numeric value in it (`TypeError`) is caught by its `try/except` and
degraded to the zero-valued metrics dictionary. -/
theorem calculate_financial_metrics_degrades (df : DataFrame) (col : String)
    (h : df.cols.contains col = false ∨ ∃ r ∈ df.rows, cellRat (r col) = none) :
    calculate_financial_metrics df col = ⟨0, 0, some 0⟩ := by
  rcases h with h | h
  · unfold calculate_financial_metrics
    rw [h]; rfl
  · unfold calculate_financial_metrics
    have hnone : sumVals (df.rows.map (fun r => r col)) = none := by
      apply sumVals_none_of_mem
      obtain ⟨r, hr, hcr⟩ := h
      exact ⟨r col, List.mem_map_of_mem (fun r => r col) hr, hcr⟩
    rw [hnone]
    cases hcols : df.cols.contains col <;> rfl

/-- A frame whose cost column holds a non-numeric value. -/
def wBadCostFrame : DataFrame := ⟨["Unit_Cost"], [fun _ => PyVal.str "N/A"]⟩

/-- Witness for the amended C8. -/
theorem calculate_financial_metrics_degrades_witness :
    (wBadCostFrame.cols.contains "Unit_Cost" = false ∨
      ∃ r ∈ wBadCostFrame.rows, cellRat (r "Unit_Cost") = none) ∧
    calculate_financial_metrics wBadCostFrame "Unit_Cost" = ⟨0, 0, some 0⟩ :=
  ⟨Or.inr ⟨fun _ => PyVal.str "N/A", by simp [wBadCostFrame], rfl⟩,
   calculate_financial_metrics_degrades wBadCostFrame "Unit_Cost"
     (Or.inr ⟨fun _ => PyVal.str "N/A", by simp [wBadCostFrame], rfl⟩)⟩

/-- Counterexample to C8 as stated: `generate_summary_stats` has no exception
handler, so a non-numeric `Cost_At_Risk` value makes it propagate the pandas
`TypeError` to the caller instead of degrading to a zero-valued entry. -/
theorem generate_summary_stats_propagates :
    generate_summary_stats
      [⟨.str "PO-1", .str "a", .str "a", "0%", 0, "$0.00", .str "N/A",
        "❌ REVENUE LEAKAGE", "High"⟩] = .error "TypeError" := by
  rfl

/-! ## Validation claims (C4) -/

/-- `String.append` concatenates the underlying character lists. -/
theorem str_data_append (a b : String) : (a ++ b).data = a.data ++ b.data := rfl

/-- Substring containment survives prepending. -/
theorem strMentions_append_left (n pre s : String) (h : strMentions n s) :
    strMentions n (pre ++ s) := by
  obtain ⟨p, q, hpq⟩ := h
  exact ⟨pre.data ++ p, q, by rw [str_data_append, hpq]; simp [List.append_assoc]⟩

/-- Every element of a list is a substring of its `', '.join`. -/
theorem mem_joinComma_mentions (c : String) (l : List String) (h : c ∈ l) :
    strMentions c (joinComma l) := by
  induction l with
  | nil => exact absurd h (List.not_mem_nil c)
  | cons x xs ih =>
    rcases List.mem_cons.mp h with rfl | hx
    · cases xs with
      | nil => exact ⟨[], [], by simp [joinComma]⟩
      | cons x' xs' =>
        refine ⟨[], (", " ++ joinComma (x' :: xs')).data, ?_⟩
        show (c ++ ", " ++ joinComma (x' :: xs')).data = _
        rw [str_data_append, str_data_append, List.nil_append, List.append_assoc,
          str_data_append]
    · cases xs with
      | nil => exact absurd hx (List.not_mem_nil c)
      | cons x' xs' =>
        have hm := ih hx
        have : joinComma (x :: x' :: xs') = (x ++ ", ") ++ joinComma (x' :: xs') := by
          show x ++ ", " ++ joinComma (x' :: xs') = _
          rw [String.append_assoc]
        rw [this]
        exact strMentions_append_left c (x ++ ", ") (joinComma (x' :: xs')) hm

/-- When a required column is absent from a non-empty frame, validation fails
and the error message names that column. -/
theorem validate_missing_mentions (df : DataFrame) (req : List String) (c : String)
    (hc : c ∈ req) (hmiss : df.cols.contains c = false)
    (hrows : df.rows.isEmpty = false) (hcols : df.cols.isEmpty = false) :
    ∃ m, validate_dataframe df req = (false, some m) ∧ strMentions c m := by
  unfold validate_dataframe
  rw [hrows, hcols]
  simp only [Bool.or_self, Bool.false_eq_true, if_false]
  have hmem : c ∈ req.filter (fun c => !(df.cols.contains c)) :=
    List.mem_filter.mpr ⟨hc, by rw [hmiss]; rfl⟩
  have hne : req.filter (fun c => !(df.cols.contains c)) ≠ [] :=
    List.ne_nil_of_mem hmem
  rw [if_neg (by simpa [List.isEmpty_iff] using hne)]
  exact ⟨_, rfl,
    strMentions_append_left c "Missing required columns: " _
      (mem_joinComma_mentions c _ hmem)⟩

/-- C4: if the invoice table is empty or lacks a required column — or, the
invoice table being valid, the clinical table is — `reconcile` raises a
validation error whose message names the missing columns, before any matching
work (the error is the same for every threshold and, for an invoice failure,
for every clinical table, so no matching or classification influences it);
no results are emitted.  The engine's only state, `match_threshold`, is a
parameter the embedding never modifies, so a subsequent valid call is
unaffected — purity of the model. -/
theorem reconcile_validation_guard (mt : Int) (dfI dfC : DataFrame) :
    ((validate_dataframe dfI invoice_required).1 = false →
      ∃ msg, reconcile mt dfI dfC = .error msg ∧
        (∀ c ∈ invoice_required, dfI.cols.contains c = false →
          dfI.rows.isEmpty = false → dfI.cols.isEmpty = false → strMentions c msg) ∧
        ∀ mt' dfC', reconcile mt' dfI dfC' = .error msg) ∧
    ((validate_dataframe dfI invoice_required).1 = true →
      (validate_dataframe dfC clinical_required).1 = false →
      ∃ msg, reconcile mt dfI dfC = .error msg ∧
        (∀ c ∈ clinical_required, dfC.cols.contains c = false →
          dfC.rows.isEmpty = false → dfC.cols.isEmpty = false → strMentions c msg) ∧
        ∀ mt', reconcile mt' dfI dfC = .error msg) := by
  constructor
  · intro hI
    refine ⟨"Invalid invoice data: " ++
      (validate_dataframe dfI invoice_required).2.getD "", ?_, ?_, ?_⟩
    · simp only [reconcile]; rw [if_pos hI]
    · intro c hc hmiss hrows hcols
      obtain ⟨m, heq, hm⟩ :=
        validate_missing_mentions dfI invoice_required c hc hmiss hrows hcols
      rw [heq]
      exact strMentions_append_left c "Invalid invoice data: " m hm
    · intro mt' dfC'; simp only [reconcile]; rw [if_pos hI]
  · intro hI hC
    refine ⟨"Invalid clinical data: " ++
      (validate_dataframe dfC clinical_required).2.getD "", ?_, ?_, ?_⟩
    · simp only [reconcile]; rw [if_neg (by simp [hI]), if_pos hC]
    · intro c hc hmiss hrows hcols
      obtain ⟨m, heq, hm⟩ :=
        validate_missing_mentions dfC clinical_required c hc hmiss hrows hcols
      rw [heq]
      exact strMentions_append_left c "Invalid clinical data: " m hm
    · intro mt'; simp only [reconcile]; rw [if_neg (by simp [hI]), if_pos hC]

/-- An invoice frame missing its `Unit_Cost` column (the spec's §8 example). -/
def wInvalidInvoiceFrame : DataFrame :=
  ⟨["PO_Number", "Vendor_Item_Name"], [fun _ => PyVal.str "x"]⟩

/-- A valid clinical frame. -/
def wClinicalFrame : DataFrame :=
  ⟨["Clinical_Item_Desc"], [fun _ => PyVal.str "stryker knee total"]⟩

/-- Witness for C4: an invoice frame without `Unit_Cost` fails validation
with a message naming that column, for every threshold. -/
theorem reconcile_validation_guard_witness :
    (validate_dataframe wInvalidInvoiceFrame invoice_required).1 = false ∧
    (∃ msg, reconcile 70 wInvalidInvoiceFrame wClinicalFrame = .error msg ∧
      (∀ c ∈ invoice_required, wInvalidInvoiceFrame.cols.contains c = false →
        wInvalidInvoiceFrame.rows.isEmpty = false →
        wInvalidInvoiceFrame.cols.isEmpty = false → strMentions c msg) ∧
      ∀ mt' dfC', reconcile mt' wInvalidInvoiceFrame dfC' = .error msg) :=
  ⟨rfl, (reconcile_validation_guard 70 wInvalidInvoiceFrame wClinicalFrame).1 rfl⟩

/-! ## One result per invoice row, in order (C2) -/

/-- The per-row loop body succeeds on a row whose cost cell is numeric (the
`Unit_Cost` formatting raises only on a string cell). -/
theorem row_result_ok (mt : Int) (descs : List PyVal) (row : String → PyVal)
    (h : (cellRat (row INVOICE_COST)).isSome = true) :
    ∃ r, row_result mt descs row = .ok r := by
  cases hv : row INVOICE_COST with
  | str s => rw [hv] at h; simp [cellRat] at h
  | num q => exact ⟨_, by simp only [row_result, hv]; rfl⟩
  | int n => exact ⟨_, by simp only [row_result, hv]; rfl⟩
  | bool b => exact ⟨_, by simp only [row_result, hv]; rfl⟩

/-- When every row's cost cell is numeric, the loop succeeds with one result
per row, in order, each the loop body's output on the corresponding row. -/
theorem reconcile_loop_spec (mt : Int) (descs : List PyVal)
    (rows : List (String → PyVal))
    (h : ∀ r ∈ rows, (cellRat (r INVOICE_COST)).isSome = true) :
    ∃ rs, reconcile_loop mt descs rows = .ok rs ∧ rs.length = rows.length ∧
      ∀ i (hi : i < rs.length) (hi' : i < rows.length),
        row_result mt descs (rows.get ⟨i, hi'⟩) = .ok (rs.get ⟨i, hi⟩) := by
  induction rows with
  | nil => exact ⟨[], rfl, rfl, fun i hi hi' => absurd hi (by simp)⟩
  | cons row rest ih =>
    obtain ⟨r, hr⟩ := row_result_ok mt descs row (h row (List.mem_cons_self row rest))
    obtain ⟨rs, hrs, hlen, hcorr⟩ := ih (fun w hw => h w (List.mem_cons_of_mem row hw))
    refine ⟨r :: rs, ?_, by simp [hlen], ?_⟩
    · simp only [reconcile_loop, hr, hrs]
      rfl
    · intro i hi hi'
      cases i with
      | zero => exact hr
      | succ j => exact hcorr j (by simpa using hi) (by simpa using hi')

/-- C2: on inputs passing validation whose cost cells are numeric (per the
InvoiceLine data model, `unit_cost` a decimal — a string cost would make the
`Unit_Cost` formatting raise mid-loop), `reconcile` succeeds with exactly
one result row per invoice row (the lengths agree), and the i-th output row
is the loop body's output on the i-th invoice row — order-preserving 1:1. -/
theorem reconcile_per_row (mt : Int) (dfI dfC : DataFrame)
    (h1 : (validate_dataframe dfI invoice_required).1 = true)
    (h2 : (validate_dataframe dfC clinical_required).1 = true)
    (hcost : ∀ r ∈ dfI.rows, (cellRat (r INVOICE_COST)).isSome = true) :
    ∃ rs, reconcile mt dfI dfC = .ok rs ∧ rs.length = dfI.rows.length ∧
      ∀ i (hi : i < rs.length) (hi' : i < dfI.rows.length),
        row_result mt (dfC.rows.map (fun r => r CLINICAL_ITEM))
            (dfI.rows.get ⟨i, hi'⟩) = .ok (rs.get ⟨i, hi⟩) := by
  obtain ⟨rs, hloop, hlen, hcorr⟩ :=
    reconcile_loop_spec mt (dfC.rows.map (fun r => r CLINICAL_ITEM)) dfI.rows hcost
  refine ⟨rs, ?_, hlen, hcorr⟩
  simp only [reconcile]
  rw [if_neg (by simp [h1]), if_neg (by simp [h2]), hloop]

/-- A valid one-row invoice frame (the spec's §8 end-to-end example). -/
def wInvoiceFrame : DataFrame :=
  ⟨["PO_Number", "Vendor_Item_Name", "Unit_Cost"],
   [fun c => if c = "PO_Number" then PyVal.str "PO-1001"
             else if c = "Vendor_Item_Name" then PyVal.str "Stryker Knee System"
             else PyVal.num 4500]⟩

/-- Witness for C2 on the end-to-end example frames. -/
theorem reconcile_per_row_witness :
    (validate_dataframe wInvoiceFrame invoice_required).1 = true ∧
    (validate_dataframe wClinicalFrame clinical_required).1 = true ∧
    (∀ r ∈ wInvoiceFrame.rows, (cellRat (r INVOICE_COST)).isSome = true) ∧
    (∃ rs, reconcile 70 wInvoiceFrame wClinicalFrame = .ok rs ∧
      rs.length = wInvoiceFrame.rows.length ∧
      ∀ i (hi : i < rs.length) (hi' : i < wInvoiceFrame.rows.length),
        row_result 70 (wClinicalFrame.rows.map (fun r => r CLINICAL_ITEM))
            (wInvoiceFrame.rows.get ⟨i, hi'⟩) = .ok (rs.get ⟨i, hi⟩)) :=
  ⟨rfl, rfl, by decide,
   reconcile_per_row 70 wInvoiceFrame wClinicalFrame rfl rfl (by decide)⟩

/-! ## Summary statistics claims (C5) -/

/-- `sumValsD` unfolds one cell at a time. -/
theorem sumValsD_cons (v : PyVal) (vs : List PyVal) :
    sumValsD (v :: vs) = (cellRat v).getD 0 + sumValsD vs := rfl

/-- When every cell is numeric, pandas aggregation does not raise and yields
the (string-as-zero) total. -/
theorem sumVals_eq_some (vals : List PyVal)
    (h : ∀ v ∈ vals, (cellRat v).isSome = true) :
    sumVals vals = some (sumValsD vals) := by
  induction vals with
  | nil => rfl
  | cons v vs ih =>
    obtain ⟨q, hq⟩ := Option.isSome_iff_exists.mp (h v (List.mem_cons_self v vs))
    show (match cellRat v, sumVals vs with
      | some q, some s => some (q + s) | _, _ => none) = _
    rw [hq, ih (fun w hw => h w (List.mem_cons_of_mem v hw)), sumValsD_cons, hq]
    rfl

/-- The three tier filters partition every collection whose rows carry one of
the three risk tiers: the filtered lengths sum to the total length and the
filtered cost totals sum to the overall cost total. -/
theorem tier_filter_partition (rows : List ResultRow)
    (h : ∀ r ∈ rows, r.Risk_Level = RISK_LEVELS_HIGH ∨
      r.Risk_Level = RISK_LEVELS_MEDIUM ∨ r.Risk_Level = RISK_LEVELS_LOW) :
    (rows.filter (fun r => decide (r.Risk_Level = RISK_LEVELS_HIGH))).length +
      (rows.filter (fun r => decide (r.Risk_Level = RISK_LEVELS_MEDIUM))).length +
      (rows.filter (fun r => decide (r.Risk_Level = RISK_LEVELS_LOW))).length
      = rows.length ∧
    sumValsD ((rows.filter (fun r => decide (r.Risk_Level = RISK_LEVELS_HIGH))).map
        (fun r => r.Cost_At_Risk)) +
      sumValsD ((rows.filter (fun r => decide (r.Risk_Level = RISK_LEVELS_MEDIUM))).map
        (fun r => r.Cost_At_Risk)) +
      sumValsD ((rows.filter (fun r => decide (r.Risk_Level = RISK_LEVELS_LOW))).map
        (fun r => r.Cost_At_Risk))
      = sumValsD (rows.map (fun r => r.Cost_At_Risk)) := by
  induction rows with
  | nil => exact ⟨rfl, by simp [sumValsD]⟩
  | cons r rs ih =>
    obtain ⟨ihc, ihs⟩ := ih (fun w hw => h w (List.mem_cons_of_mem r hw))
    have hHM : RISK_LEVELS_HIGH ≠ RISK_LEVELS_MEDIUM := by decide
    have hHL : RISK_LEVELS_HIGH ≠ RISK_LEVELS_LOW := by decide
    have hMH : RISK_LEVELS_MEDIUM ≠ RISK_LEVELS_HIGH := by decide
    have hML : RISK_LEVELS_MEDIUM ≠ RISK_LEVELS_LOW := by decide
    have hLH : RISK_LEVELS_LOW ≠ RISK_LEVELS_HIGH := by decide
    have hLM : RISK_LEVELS_LOW ≠ RISK_LEVELS_MEDIUM := by decide
    rcases h r (List.mem_cons_self r rs) with hr | hr | hr
    · constructor
      · simp only [List.filter_cons, hr, decide_eq_true_eq]
        rw [if_pos trivial, if_neg hHM, if_neg hHL]
        simp only [List.length_cons]
        omega
      · simp only [List.filter_cons, hr, decide_eq_true_eq]
        rw [if_pos trivial, if_neg hHM, if_neg hHL]
        simp only [List.map_cons, sumValsD_cons]
        rw [← ihs]
        ring
    · constructor
      · simp only [List.filter_cons, hr, decide_eq_true_eq]
        rw [if_neg hMH, if_pos trivial, if_neg hML]
        simp only [List.length_cons]
        omega
      · simp only [List.filter_cons, hr, decide_eq_true_eq]
        rw [if_neg hMH, if_pos trivial, if_neg hML]
        simp only [List.map_cons, sumValsD_cons]
        rw [← ihs]
        ring
    · constructor
      · simp only [List.filter_cons, hr, decide_eq_true_eq]
        rw [if_neg hLH, if_neg hLM, if_pos trivial]
        simp only [List.length_cons]
        omega
      · simp only [List.filter_cons, hr, decide_eq_true_eq]
        rw [if_neg hLH, if_neg hLM, if_pos trivial]
        simp only [List.map_cons, sumValsD_cons]
        rw [← ihs]
        ring

/-- C5: for every result collection (rows carrying one of the three tiers and
a numeric cost, as every `reconcile` output does), `generate_summary_stats`
returns exactly one entry per tier, in the order High, Medium, Low, present
even when a tier's count is 0 (and then with `total_amount = 0` and
`avg_amount = 0`, the division guarded by the length test); the per-tier
counts sum to the number of results and the per-tier totals sum to the sum of
all `Cost_At_Risk` values. -/
theorem generate_summary_stats_partition (results : List ResultRow)
    (hcost : ∀ r ∈ results, (cellRat r.Cost_At_Risk).isSome = true)
    (htier : ∀ r ∈ results, r.Risk_Level = RISK_LEVELS_HIGH ∨
      r.Risk_Level = RISK_LEVELS_MEDIUM ∨ r.Risk_Level = RISK_LEVELS_LOW) :
    ∃ eH eM eL,
      generate_summary_stats results =
        .ok [(RISK_LEVELS_HIGH, eH), (RISK_LEVELS_MEDIUM, eM), (RISK_LEVELS_LOW, eL)] ∧
      eH.count + eM.count + eL.count = results.length ∧
      sumVals (results.map (fun r => r.Cost_At_Risk)) =
        some (eH.total_amount + eM.total_amount + eL.total_amount) ∧
      (eH.count = 0 → eH.total_amount = 0 ∧ eH.avg_amount = 0) ∧
      (eM.count = 0 → eM.total_amount = 0 ∧ eM.avg_amount = 0) ∧
      (eL.count = 0 → eL.total_amount = 0 ∧ eL.avg_amount = 0) := by
  have mk : ∀ t : String, tierEntry results t = .ok (tierEntryVal results t) := by
    intro t
    have hsub : ∀ v ∈ (results.filter (fun r => decide (r.Risk_Level = t))).map
        (fun r => r.Cost_At_Risk), (cellRat v).isSome = true := by
      intro v hv
      obtain ⟨r, hr, rfl⟩ := List.mem_map.mp hv
      exact hcost r (List.mem_of_mem_filter hr)
    simp only [tierEntry, tierEntryVal]
    rw [sumVals_eq_some _ hsub]
  obtain ⟨hc, hs⟩ := tier_filter_partition results htier
  refine ⟨tierEntryVal results RISK_LEVELS_HIGH, tierEntryVal results RISK_LEVELS_MEDIUM,
    tierEntryVal results RISK_LEVELS_LOW, ?_, ?_, ?_, ?_, ?_, ?_⟩
  · unfold generate_summary_stats
    rw [mk RISK_LEVELS_HIGH, mk RISK_LEVELS_MEDIUM, mk RISK_LEVELS_LOW]
    rfl
  · exact hc
  · have hall : ∀ v ∈ results.map (fun r => r.Cost_At_Risk),
        (cellRat v).isSome = true := by
      intro v hv
      obtain ⟨r, hr, rfl⟩ := List.mem_map.mp hv
      exact hcost r hr
    rw [sumVals_eq_some _ hall]
    exact congrArg some hs.symm
  · intro h0
    have he : results.filter (fun r => decide (r.Risk_Level = RISK_LEVELS_HIGH)) = [] :=
      List.length_eq_zero.mp h0
    constructor
    · show sumValsD ((results.filter
        (fun r => decide (r.Risk_Level = RISK_LEVELS_HIGH))).map
          (fun r => r.Cost_At_Risk)) = 0
      rw [he]; rfl
    · show (if 0 < (results.filter
          (fun r => decide (r.Risk_Level = RISK_LEVELS_HIGH))).length then _ else 0) = 0
      rw [he]; rfl
  · intro h0
    have he : results.filter (fun r => decide (r.Risk_Level = RISK_LEVELS_MEDIUM)) = [] :=
      List.length_eq_zero.mp h0
    constructor
    · show sumValsD ((results.filter
        (fun r => decide (r.Risk_Level = RISK_LEVELS_MEDIUM))).map
          (fun r => r.Cost_At_Risk)) = 0
      rw [he]; rfl
    · show (if 0 < (results.filter
          (fun r => decide (r.Risk_Level = RISK_LEVELS_MEDIUM))).length then _ else 0) = 0
      rw [he]; rfl
  · intro h0
    have he : results.filter (fun r => decide (r.Risk_Level = RISK_LEVELS_LOW)) = [] :=
      List.length_eq_zero.mp h0
    constructor
    · show sumValsD ((results.filter
        (fun r => decide (r.Risk_Level = RISK_LEVELS_LOW))).map
          (fun r => r.Cost_At_Risk)) = 0
      rw [he]; rfl
    · show (if 0 < (results.filter
          (fun r => decide (r.Risk_Level = RISK_LEVELS_LOW))).length then _ else 0) = 0
      rw [he]; rfl

/-- A one-row result collection, as `reconcile` produces on the end-to-end
example. -/
def wSummaryResults : List ResultRow :=
  [⟨.str "PO-1001", .str "Stryker Knee System", .str "stryker knee total", "76%", 76, "$4,500.00",
    .num 4500, "⚠️ Review Required", "Medium"⟩]

/-- Witness for C5. -/
theorem generate_summary_stats_partition_witness :
    (∀ r ∈ wSummaryResults, (cellRat r.Cost_At_Risk).isSome = true) ∧
    (∀ r ∈ wSummaryResults, r.Risk_Level = RISK_LEVELS_HIGH ∨
      r.Risk_Level = RISK_LEVELS_MEDIUM ∨ r.Risk_Level = RISK_LEVELS_LOW) ∧
    (∃ eH eM eL,
      generate_summary_stats wSummaryResults =
        .ok [(RISK_LEVELS_HIGH, eH), (RISK_LEVELS_MEDIUM, eM), (RISK_LEVELS_LOW, eL)] ∧
      eH.count + eM.count + eL.count = wSummaryResults.length ∧
      sumVals (wSummaryResults.map (fun r => r.Cost_At_Risk)) =
        some (eH.total_amount + eM.total_amount + eL.total_amount) ∧
      (eH.count = 0 → eH.total_amount = 0 ∧ eH.avg_amount = 0) ∧
      (eM.count = 0 → eM.total_amount = 0 ∧ eM.avg_amount = 0) ∧
      (eL.count = 0 → eL.total_amount = 0 ∧ eL.avg_amount = 0)) :=
  ⟨by decide, by decide,
   generate_summary_stats_partition wSummaryResults (by decide) (by decide)⟩

/-! ## Matcher claims (C3) -/

/-- `extractOne` returns the first choice attaining the maximum score: the
result is the i-th choice with its score, every score is at most that one,
and every earlier choice scores strictly less. -/
theorem extractOne_spec (scorer : String → String → Nat) (q : String)
    (cs : List String) (h : cs ≠ []) :
    ∃ (i : Nat) (hi : i < cs.length),
      extractOne scorer q cs = some (cs.get ⟨i, hi⟩, scorer q (cs.get ⟨i, hi⟩)) ∧
      (∀ j (hj : j < cs.length), scorer q (cs.get ⟨j, hj⟩) ≤ scorer q (cs.get ⟨i, hi⟩)) ∧
      (∀ j (hj : j < cs.length), j < i →
        scorer q (cs.get ⟨j, hj⟩) < scorer q (cs.get ⟨i, hi⟩)) := by
  induction cs with
  | nil => exact absurd rfl h
  | cons c cs ih =>
    cases cs with
    | nil =>
      refine ⟨0, by simp, rfl, ?_, ?_⟩
      · intro j hj
        have : j = 0 := by simpa using hj
        subst this
        exact le_refl _
      · intro j hj hji
        omega
    | cons c' cs' =>
      obtain ⟨i, hi, heq, hmax, hmin⟩ := ih (by simp)
      have hunfold : extractOne scorer q (c :: c' :: cs') =
          if scorer q c < scorer q ((c' :: cs').get ⟨i, hi⟩) then
            some ((c' :: cs').get ⟨i, hi⟩, scorer q ((c' :: cs').get ⟨i, hi⟩))
          else some (c, scorer q c) := by
        show (match extractOne scorer q (c' :: cs') with
          | none => some (c, scorer q c)
          | some (b, bs) =>
            if scorer q c < bs then some (b, bs) else some (c, scorer q c)) = _
        rw [heq]
      by_cases hlt : scorer q c < scorer q ((c' :: cs').get ⟨i, hi⟩)
      · refine ⟨i + 1, by simpa using Nat.succ_lt_succ hi, ?_, ?_, ?_⟩
        · rw [hunfold, if_pos hlt]; rfl
        · intro j hj
          cases j with
          | zero => exact le_of_lt hlt
          | succ j' => exact hmax j' (by simpa using hj)
        · intro j hj hji
          cases j with
          | zero => exact hlt
          | succ j' => exact hmin j' (by simpa using hj) (by omega)
      · push_neg at hlt
        refine ⟨0, by simp, ?_, ?_, ?_⟩
        · rw [hunfold, if_neg (by omega)]; rfl
        · intro j hj
          cases j with
          | zero => exact le_refl _
          | succ j' => exact le_trans (hmax j' (by simpa using hj)) hlt
        · intro j hj hji
          omega

/-- Python `list.index` returns the first index holding the element. -/
theorem listIndex_spec (x : String) (l : List String) (hx : x ∈ l) :
    ∃ h : listIndex x l < l.length,
      l.get ⟨listIndex x l, h⟩ = x ∧
      ∀ j (hj : j < l.length), l.get ⟨j, hj⟩ = x → listIndex x l ≤ j := by
  induction l with
  | nil => exact absurd hx (List.not_mem_nil x)
  | cons y ys ih =>
    by_cases hxy : y = x
    · refine ⟨?_, ?_, ?_⟩
      · show (if y = x then 0 else listIndex x ys + 1) < (y :: ys).length
        rw [if_pos hxy]; simp
      · show (y :: ys).get ⟨if y = x then 0 else listIndex x ys + 1, _⟩ = x
        simp [hxy]
      · intro j hj hget
        show (if y = x then 0 else listIndex x ys + 1) ≤ j
        rw [if_pos hxy]
        exact Nat.zero_le j
    · have hx' : x ∈ ys := by
        rcases List.mem_cons.mp hx with h | h
        · exact absurd h.symm hxy
        · exact h
      obtain ⟨h1, h2, h3⟩ := ih hx'
      have hidx : listIndex x (y :: ys) = listIndex x ys + 1 := by
        show (if y = x then 0 else listIndex x ys + 1) = _
        rw [if_neg hxy]
      refine ⟨?_, ?_, ?_⟩
      · rw [hidx]; simpa using Nat.succ_lt_succ h1
      · have : (y :: ys).get ⟨listIndex x ys + 1, by simpa using Nat.succ_lt_succ h1⟩
            = ys.get ⟨listIndex x ys, h1⟩ := rfl
        simp only [hidx]
        rw [this, h2]
      · intro j hj hget
        cases j with
        | zero => exact absurd hget hxy
        | succ j' =>
          rw [hidx]
          exact Nat.succ_le_succ (h3 j' (by simpa using hj) hget)

/-- C3: for every query and non-empty candidate list, `fuzzy_match_item`
(with its default scorer `fuzz.token_sort_ratio`) returns the first candidate
— in input order — attaining the maximum token-sort similarity over the
normalized strings, together with that score; the returned match is the
original candidate value (`clinical_items[i]`), not its normalized form. -/
theorem fuzzy_match_first_argmax (q : PyVal) (cands : List PyVal) (h : cands ≠ []) :
    ∃ (i : Nat) (hi : i < cands.length),
      fuzzy_match_item token_sort_score q cands =
        (cands.get ⟨i, hi⟩,
         token_sort_score (normalize_text q) (normalize_text (cands.get ⟨i, hi⟩))) ∧
      (∀ j (hj : j < cands.length),
        token_sort_score (normalize_text q) (normalize_text (cands.get ⟨j, hj⟩)) ≤
          token_sort_score (normalize_text q) (normalize_text (cands.get ⟨i, hi⟩))) ∧
      (∀ j (hj : j < cands.length), j < i →
        token_sort_score (normalize_text q) (normalize_text (cands.get ⟨j, hj⟩)) <
          token_sort_score (normalize_text q) (normalize_text (cands.get ⟨i, hi⟩))) := by
  have hnc : cands.map normalize_text ≠ [] := fun hh => h (List.map_eq_nil.mp hh)
  obtain ⟨i, hi, heq, hmax, hmin⟩ :=
    extractOne_spec token_sort_score (normalize_text q) (cands.map normalize_text) hnc
  have hlen : (cands.map normalize_text).length = cands.length := List.length_map _ _
  have hi' : i < cands.length := hlen ▸ hi
  have hget : ∀ (j : Nat) (hj : j < cands.length) (hj' : j < (cands.map normalize_text).length),
      (cands.map normalize_text).get ⟨j, hj'⟩ = normalize_text (cands.get ⟨j, hj⟩) := by
    intro j hj hj'
    rw [List.get_map]
  have hbest_mem : (cands.map normalize_text).get ⟨i, hi⟩ ∈ cands.map normalize_text :=
    List.get_mem _ _ _
  obtain ⟨hk_lt, hk_get, hk_min⟩ := listIndex_spec _ _ hbest_mem
  have hk_le : listIndex ((cands.map normalize_text).get ⟨i, hi⟩) (cands.map normalize_text)
      ≤ i := hk_min i hi rfl
  have hik : i ≤ listIndex ((cands.map normalize_text).get ⟨i, hi⟩)
      (cands.map normalize_text) := by
    by_contra hc
    push_neg at hc
    have h1 := hmin _ hk_lt hc
    rw [hk_get] at h1
    exact lt_irrefl _ h1
  have hk_eq : listIndex ((cands.map normalize_text).get ⟨i, hi⟩)
      (cands.map normalize_text) = i := le_antisymm hk_le hik
  refine ⟨i, hi', ?_, ?_, ?_⟩
  · show (match extractOne token_sort_score (normalize_text q) (cands.map normalize_text) with
      | some (best, score) =>
        (cands.getD (listIndex best (cands.map normalize_text)) (.str ""), score)
      | none => (.str NONE_SENTINEL, 0)) = _
    rw [heq]
    show (cands.getD (listIndex ((cands.map normalize_text).get ⟨i, hi⟩)
        (cands.map normalize_text)) (.str ""),
      token_sort_score (normalize_text q) ((cands.map normalize_text).get ⟨i, hi⟩)) = _
    rw [hk_eq, List.getD_eq_get _ _ hi', hget i hi' hi]
  · intro j hj
    have h1 := hmax j (by rw [hlen]; exact hj)
    rw [hget j hj, hget i hi' hi] at h1
    exact h1
  · intro j hj hji
    have h1 := hmin j (by rw [hlen]; exact hj) hji
    rw [hget j hj, hget i hi' hi] at h1
    exact h1

/-- Witness for C3 on a two-candidate list. -/
theorem fuzzy_match_first_argmax_witness :
    ([PyVal.str "zimmer hip stem", PyVal.str "stryker knee total"] ≠ ([] : List PyVal)) ∧
    (∃ (i : Nat)
       (hi : i < [PyVal.str "zimmer hip stem", PyVal.str "stryker knee total"].length),
      fuzzy_match_item token_sort_score (.str "Stryker KNEE")
          [PyVal.str "zimmer hip stem", PyVal.str "stryker knee total"] =
        ([PyVal.str "zimmer hip stem", PyVal.str "stryker knee total"].get ⟨i, hi⟩,
         token_sort_score (normalize_text (.str "Stryker KNEE"))
           (normalize_text
             ([PyVal.str "zimmer hip stem", PyVal.str "stryker knee total"].get ⟨i, hi⟩))) ∧
      (∀ j (hj : j < [PyVal.str "zimmer hip stem", PyVal.str "stryker knee total"].length),
        token_sort_score (normalize_text (.str "Stryker KNEE"))
            (normalize_text
              ([PyVal.str "zimmer hip stem", PyVal.str "stryker knee total"].get ⟨j, hj⟩)) ≤
          token_sort_score (normalize_text (.str "Stryker KNEE"))
            (normalize_text
              ([PyVal.str "zimmer hip stem", PyVal.str "stryker knee total"].get ⟨i, hi⟩))) ∧
      (∀ j (hj : j < [PyVal.str "zimmer hip stem", PyVal.str "stryker knee total"].length),
        j < i →
        token_sort_score (normalize_text (.str "Stryker KNEE"))
            (normalize_text
              ([PyVal.str "zimmer hip stem", PyVal.str "stryker knee total"].get ⟨j, hj⟩)) <
          token_sort_score (normalize_text (.str "Stryker KNEE"))
            (normalize_text
              ([PyVal.str "zimmer hip stem", PyVal.str "stryker knee total"].get ⟨i, hi⟩)))) :=
  ⟨by decide,
   fuzzy_match_first_argmax (.str "Stryker KNEE")
     [.str "zimmer hip stem", .str "stryker knee total"] (by decide)⟩

/-! ## Normalizer claims (C6, C7) -/

/-- One step of `' '.join`. -/
theorem joinTok_cons (t : List Char) (ts : List (List Char)) :
    joinTok (t :: ts) = t ++ (if ts = [] then [] else ' ' :: joinTok ts) := by
  cases ts with
  | nil => simp [joinTok]
  | cons t' ts' => rfl

/-- `str.split()` never produces an empty token. -/
theorem splitAux_ne_nil (l : List Char) (acc : List Char) :
    ∀ t ∈ splitAux l acc, t ≠ [] := by
  induction l generalizing acc with
  | nil =>
    intro t ht
    by_cases hacc : acc.isEmpty
    · simp [splitAux, hacc] at ht
    · rw [show splitAux [] acc = [acc.reverse] by
        simp [splitAux, Bool.eq_false_iff.mpr hacc]] at ht
      have : t = acc.reverse := by simpa using ht
      subst this
      simpa [List.isEmpty_iff] using hacc
  | cons c cs ih =>
    intro t ht
    cases hws : isWsChar c
    · rw [show splitAux (c :: cs) acc = splitAux cs (c :: acc) by
        simp [splitAux, hws]] at ht
      exact ih (c :: acc) t ht
    · by_cases hacc : acc.isEmpty
      · rw [show splitAux (c :: cs) acc = splitAux cs [] by
          simp [splitAux, hws, hacc]] at ht
        exact ih [] t ht
      · rw [show splitAux (c :: cs) acc = acc.reverse :: splitAux cs [] by
          simp [splitAux, hws, Bool.eq_false_iff.mpr hacc]] at ht
        rcases List.mem_cons.mp ht with rfl | ht'
        · simpa [List.isEmpty_iff] using hacc
        · exact ih [] t ht'

/-- `' '.join` of non-empty tokens is empty exactly when there are none. -/
theorem joinTok_eq_nil (ts : List (List Char)) (h : ∀ t ∈ ts, t ≠ []) :
    joinTok ts = [] ↔ ts = [] := by
  cases ts with
  | nil => simp [joinTok]
  | cons t ts' =>
    rw [joinTok_cons]
    constructor
    · intro happ
      obtain ⟨ht, _⟩ := List.append_eq_nil.mp happ
      exact absurd ht (h t (List.mem_cons_self t ts'))
    · intro hh
      exact absurd hh (List.cons_ne_nil t ts')

/-- `' '.join(split(l))` computed through the canonical collapse/trim
functions: with an empty accumulator it is `canonStart`, with a pending token
it is that token followed by `canonTok`. -/
theorem joinTok_splitAux (l : List Char) (acc : List Char) :
    joinTok (splitAux l acc) =
      if acc = [] then canonStart l else acc.reverse ++ canonTok l := by
  induction l generalizing acc with
  | nil =>
    by_cases hacc : acc = []
    · subst hacc; simp [splitAux, joinTok, canonStart]
    · have hne : acc.isEmpty = false := by simpa [List.isEmpty_iff] using hacc
      rw [show splitAux [] acc = [acc.reverse] by simp [splitAux, hne]]
      simp [joinTok, hacc, canonTok]
  | cons c cs ih =>
    cases hws : isWsChar c
    · rw [show splitAux (c :: cs) acc = splitAux cs (c :: acc) by
        simp [splitAux, hws]]
      rw [ih (c :: acc), if_neg (List.cons_ne_nil c acc)]
      by_cases hacc : acc = []
      · subst hacc
        rw [if_pos rfl]
        simp [canonStart, hws]
      · rw [if_neg hacc]
        simp [canonTok, hws, List.append_assoc]
    · have ihnil := ih []
      rw [if_pos rfl] at ihnil
      by_cases hacc : acc = []
      · subst hacc
        rw [show splitAux (c :: cs) [] = splitAux cs [] by simp [splitAux, hws]]
        rw [if_pos rfl, ihnil]
        simp [canonStart, hws]
      · have hne : acc.isEmpty = false := by simpa [List.isEmpty_iff] using hacc
        rw [show splitAux (c :: cs) acc = acc.reverse :: splitAux cs [] by
          simp [splitAux, hws, hne]]
        rw [joinTok_cons, if_neg hacc]
        refine congrArg (fun z => acc.reverse ++ z) ?_
        by_cases hcs : canonStart cs = []
        · have hsplit_nil : splitAux cs [] = [] :=
            (joinTok_eq_nil _ (splitAux_ne_nil cs [])).mp (by rw [ihnil, hcs])
          rw [if_pos hsplit_nil]
          simp [canonTok, hws, hcs]
        · have hsplit_ne : splitAux cs [] ≠ [] := by
            intro hh
            rw [hh] at ihnil
            exact hcs ihnil.symm
          rw [if_neg hsplit_ne, ihnil]
          cases hm : canonStart cs with
          | nil => exact absurd hm hcs
          | cons a as => simp [canonTok, hws, hm]

/-- The `' '.join(text.split())` step equals the canonical collapse/trim. -/
theorem joinTok_pySplit_eq_canonStart (l : List Char) :
    joinTok (pySplit l) = canonStart l := by
  rw [show pySplit l = splitAux l [] from rfl, joinTok_splitAux, if_pos rfl]

/-- `rtrim` keeps a non-whitespace head. -/
theorem rtrim_cons_not_ws (c : Char) (X : List Char) (h : isWsChar c = false) :
    rtrim (c :: X) = c :: rtrim X := by
  simp [rtrim, h]

/-- `rtrim` keeps a whitespace head when something survives after it. -/
theorem rtrim_cons_ws_ne (c : Char) (X : List Char) (h : isWsChar c = true)
    (hX : rtrim X ≠ []) : rtrim (c :: X) = c :: rtrim X := by
  simp [rtrim, h, hX]

/-- The canonical collapse/trim functions equal the spec's pipeline: from a
token boundary they are right-trim of left-trim of the whitespace collapse,
inside a token just the right-trim of the collapse. -/
theorem canon_eq_trim_collapse (l : List Char) :
    canonStart l = rtrim (ltrim (collapseWs l)) ∧ canonTok l = rtrim (collapseWs l) := by
  induction l with
  | nil => exact ⟨rfl, rfl⟩
  | cons c cs ih =>
    obtain ⟨ihP, ihQ⟩ := ih
    cases hws : isWsChar c
    · constructor
      · cases cs with
        | nil => simp [canonStart, canonTok, hws, collapseWs, ltrim, rtrim]
        | cons c' cs' =>
          have hcol : collapseWs (c :: c' :: cs') = c :: collapseWs (c' :: cs') := by
            simp [collapseWs, hws]
          rw [hcol]
          have hlt : ltrim (c :: collapseWs (c' :: cs')) = c :: collapseWs (c' :: cs') := by
            simp [ltrim, List.dropWhile_cons, hws]
          rw [hlt, rtrim_cons_not_ws c _ hws, ← ihQ]
          simp [canonStart, hws]
      · cases cs with
        | nil => simp [canonTok, hws, collapseWs, rtrim]
        | cons c' cs' =>
          have hcol : collapseWs (c :: c' :: cs') = c :: collapseWs (c' :: cs') := by
            simp [collapseWs, hws]
          rw [hcol, rtrim_cons_not_ws c _ hws, ← ihQ]
          simp [canonTok, hws]
    · constructor
      · cases cs with
        | nil => simp [canonStart, hws, collapseWs, ltrim, List.dropWhile_cons, rtrim]
        | cons c' cs' =>
          cases hws' : isWsChar c'
          · have hcol : collapseWs (c :: c' :: cs') = ' ' :: collapseWs (c' :: cs') := by
              simp [collapseWs, hws, hws']
            rw [hcol]
            have hlt : ltrim (' ' :: collapseWs (c' :: cs')) =
                ltrim (collapseWs (c' :: cs')) := by
              simp [ltrim, List.dropWhile_cons, isWsChar]
            rw [hlt, ← ihP]
            simp [canonStart, hws]
          · have hcol : collapseWs (c :: c' :: cs') = collapseWs (c' :: cs') := by
              simp [collapseWs, hws, hws']
            rw [hcol, ← ihP]
            simp [canonStart, hws]
      · cases cs with
        | nil =>
          have h1 : canonTok [c] = [] := by simp [canonTok, hws, canonStart]
          have h2 : collapseWs [c] = [' '] := by simp [collapseWs, hws]
          rw [h1, h2]
          decide
        | cons c' cs' =>
          cases hws' : isWsChar c'
          · have hcol : collapseWs (c :: c' :: cs') = ' ' :: collapseWs (c' :: cs') := by
              simp [collapseWs, hws, hws']
            rw [hcol]
            have hTok : canonTok (c' :: cs') = c' :: canonTok cs' := by
              simp [canonTok, hws']
            have hne : rtrim (collapseWs (c' :: cs')) ≠ [] := by
              rw [← ihQ, hTok]; exact List.cons_ne_nil _ _
            rw [rtrim_cons_ws_ne ' ' _ (by decide) hne, ← ihQ, hTok]
            have hStart : canonStart (c' :: cs') = c' :: canonTok cs' := by
              simp [canonStart, hws']
            simp [canonTok, hws, hStart]
          · have hcol : collapseWs (c :: c' :: cs') = collapseWs (c' :: cs') := by
              simp [collapseWs, hws, hws']
            rw [hcol, ← ihQ]
            have hcs : canonStart (c' :: cs') = canonStart cs' := by
              simp [canonStart, hws']
            simp [canonTok, hws, hws', hcs]

/-- C6: on every string input, `normalize_text` lower-cases, replaces every
character outside lowercase a–z, digits and whitespace by a single space,
collapses consecutive whitespace to one space and trims both ends (the
code's `' '.join(text.split())` equals the spec's collapse-and-trim); in
particular `normalize("Stryker KNEE!!") = normalize("stryker knee")`. -/
theorem normalize_text_matches_spec :
    (∀ s : String, normalize_text (.str s) = spec_normalize s) ∧
    normalize_text (.str "Stryker KNEE!!") = normalize_text (.str "stryker knee") := by
  constructor
  · intro s
    refine congrArg String.mk ?_
    rw [show normChars s.data =
      joinTok (pySplit ((s.data.map pyLowerChar).map subChar)) from rfl]
    rw [joinTok_pySplit_eq_canonStart]
    exact (canon_eq_trim_collapse _).1
  · decide

/-- The substitution only produces kept characters. -/
theorem subChar_keep (c : Char) : keepChar (subChar c) = true := by
  unfold subChar
  cases h : keepChar c
  · rw [if_neg (by simp)]
    decide
  · simpa using h

/-- Characters of `str.split()` tokens come from the accumulator or the
input. -/
theorem splitAux_chars_subset (l acc : List Char) :
    ∀ t ∈ splitAux l acc, ∀ c ∈ t, c ∈ acc ∨ c ∈ l := by
  induction l generalizing acc with
  | nil =>
    intro t ht c hc
    by_cases hacc : acc.isEmpty
    · simp [splitAux, hacc] at ht
    · rw [show splitAux [] acc = [acc.reverse] by
        simp [splitAux, Bool.eq_false_iff.mpr hacc]] at ht
      have : t = acc.reverse := by simpa using ht
      subst this
      exact Or.inl (List.mem_reverse.mp hc)
  | cons x xs ih =>
    intro t ht c hc
    cases hws : isWsChar x
    · rw [show splitAux (x :: xs) acc = splitAux xs (x :: acc) by
        simp [splitAux, hws]] at ht
      rcases ih (x :: acc) t ht c hc with h | h
      · rcases List.mem_cons.mp h with rfl | h'
        · exact Or.inr (List.mem_cons_self c xs)
        · exact Or.inl h'
      · exact Or.inr (List.mem_cons_of_mem x h)
    · by_cases hacc : acc.isEmpty
      · rw [show splitAux (x :: xs) acc = splitAux xs [] by
          simp [splitAux, hws, hacc]] at ht
        rcases ih [] t ht c hc with h | h
        · exact absurd h (List.not_mem_nil c)
        · exact Or.inr (List.mem_cons_of_mem x h)
      · rw [show splitAux (x :: xs) acc = acc.reverse :: splitAux xs [] by
          simp [splitAux, hws, Bool.eq_false_iff.mpr hacc]] at ht
        rcases List.mem_cons.mp ht with rfl | ht'
        · exact Or.inl (List.mem_reverse.mp hc)
        · rcases ih [] t ht' c hc with h | h
          · exact absurd h (List.not_mem_nil c)
          · exact Or.inr (List.mem_cons_of_mem x h)

/-- Characters of `str.split()` tokens are never whitespace. -/
theorem splitAux_chars_not_ws (l acc : List Char)
    (hacc : ∀ c ∈ acc, isWsChar c = false) :
    ∀ t ∈ splitAux l acc, ∀ c ∈ t, isWsChar c = false := by
  induction l generalizing acc with
  | nil =>
    intro t ht c hc
    by_cases he : acc.isEmpty
    · simp [splitAux, he] at ht
    · rw [show splitAux [] acc = [acc.reverse] by
        simp [splitAux, Bool.eq_false_iff.mpr he]] at ht
      have : t = acc.reverse := by simpa using ht
      subst this
      exact hacc c (List.mem_reverse.mp hc)
  | cons x xs ih =>
    intro t ht c hc
    cases hws : isWsChar x
    · rw [show splitAux (x :: xs) acc = splitAux xs (x :: acc) by
        simp [splitAux, hws]] at ht
      refine ih (x :: acc) ?_ t ht c hc
      intro d hd
      rcases List.mem_cons.mp hd with rfl | hd'
      · exact hws
      · exact hacc d hd'
    · by_cases he : acc.isEmpty
      · rw [show splitAux (x :: xs) acc = splitAux xs [] by
          simp [splitAux, hws, he]] at ht
        exact ih [] (fun d hd => absurd hd (List.not_mem_nil d)) t ht c hc
      · rw [show splitAux (x :: xs) acc = acc.reverse :: splitAux xs [] by
          simp [splitAux, hws, Bool.eq_false_iff.mpr he]] at ht
        rcases List.mem_cons.mp ht with rfl | ht'
        · exact hacc c (List.mem_reverse.mp hc)
        · exact ih [] (fun d hd => absurd hd (List.not_mem_nil d)) t ht' c hc

/-- A character of `' '.join(tokens)` is a space or a token character. -/
theorem joinTok_chars (ts : List (List Char)) (c : Char) (hc : c ∈ joinTok ts) :
    c = ' ' ∨ ∃ t ∈ ts, c ∈ t := by
  induction ts with
  | nil => simp [joinTok] at hc
  | cons t ts' ih =>
    rw [joinTok_cons] at hc
    rcases List.mem_append.mp hc with h | h
    · exact Or.inr ⟨t, List.mem_cons_self t ts', h⟩
    · by_cases hne : ts' = []
      · rw [if_pos hne] at h
        exact absurd h (List.not_mem_nil c)
      · rw [if_neg hne] at h
        rcases List.mem_cons.mp h with rfl | h'
        · exact Or.inl rfl
        · rcases ih h' with h'' | ⟨u, hu, hcu⟩
          · exact Or.inl h''
          · exact Or.inr ⟨u, List.mem_cons_of_mem t hu, hcu⟩

/-- Every character of the normalizer's output is in the kept class. -/
theorem normChars_keep (l : List Char) (c : Char) (hc : c ∈ normChars l) :
    keepChar c = true := by
  rcases joinTok_chars _ c hc with rfl | ⟨t, ht, hct⟩
  · decide
  · rcases splitAux_chars_subset _ [] t ht c hct with h | h
    · exact absurd h (List.not_mem_nil c)
    · obtain ⟨d, _, rfl⟩ := List.mem_map.mp h
      exact subChar_keep _

/-- Lower-casing is the identity on the kept class (which has no ASCII
upper-case letters). -/
theorem pyLowerChar_id_of_keep (c : Char) (h : keepChar c = true) :
    pyLowerChar c = c := by
  unfold pyLowerChar
  cases hcond : (decide ('A' ≤ c) && decide (c ≤ 'Z'))
  · simp
  · exfalso
    obtain ⟨hA, hZ⟩ := Bool.and_eq_true_iff.mp hcond
    have hA' : 'A' ≤ c := of_decide_eq_true hA
    have hZ' : c ≤ 'Z' := of_decide_eq_true hZ
    unfold keepChar at h
    simp only [Bool.or_eq_true, Bool.and_eq_true, decide_eq_true_eq] at h
    rcases h with (⟨ha, _⟩ | ⟨_, h9⟩) | hws
    · exact absurd (le_trans ha hZ') (by decide)
    · exact absurd (le_trans hA' h9) (by decide)
    · simp only [isWsChar, Bool.or_eq_true, beq_iff_eq] at hws
      rcases hws with ((((rfl | rfl) | rfl) | rfl) | rfl) | rfl <;>
        exact absurd hA' (by decide)

/-- The substitution is the identity on the kept class. -/
theorem subChar_id_of_keep (c : Char) (h : keepChar c = true) : subChar c = c := by
  unfold subChar
  rw [if_pos h]

/-- Re-running lower-case and substitution on normalized text changes
nothing. -/
theorem normChars_map_id (l : List Char) :
    ((normChars l).map pyLowerChar).map subChar = normChars l := by
  rw [List.map_map]
  have h : ∀ c ∈ normChars l, (subChar ∘ pyLowerChar) c = c := by
    intro c hc
    have hk := normChars_keep l c hc
    show subChar (pyLowerChar c) = c
    rw [pyLowerChar_id_of_keep c hk, subChar_id_of_keep c hk]
  calc (normChars l).map (subChar ∘ pyLowerChar)
      = (normChars l).map id := List.map_congr_left h
    _ = normChars l := List.map_id _

/-- `str.split()` consumes a whitespace-free prefix into the accumulator. -/
theorem splitAux_append_token (t rest acc : List Char)
    (ht : ∀ c ∈ t, isWsChar c = false) :
    splitAux (t ++ rest) acc = splitAux rest (t.reverse ++ acc) := by
  induction t generalizing acc with
  | nil => simp
  | cons c t' ih =>
    have hws : isWsChar c = false := ht c (List.mem_cons_self c t')
    show splitAux (c :: (t' ++ rest)) acc = _
    rw [show splitAux (c :: (t' ++ rest)) acc = splitAux (t' ++ rest) (c :: acc) by
      simp [splitAux, hws]]
    rw [ih (c :: acc) (fun d hd => ht d (List.mem_cons_of_mem c hd))]
    rw [List.reverse_cons, List.append_assoc]
    rfl

/-- Splitting the space-join of non-empty whitespace-free tokens recovers the
tokens. -/
theorem pySplit_joinTok (ts : List (List Char)) (hne : ∀ t ∈ ts, t ≠ [])
    (hnw : ∀ t ∈ ts, ∀ c ∈ t, isWsChar c = false) :
    pySplit (joinTok ts) = ts := by
  induction ts with
  | nil => rfl
  | cons t ts' ih =>
    have htne : t ≠ [] := hne t (List.mem_cons_self t ts')
    have htnw : ∀ c ∈ t, isWsChar c = false := hnw t (List.mem_cons_self t ts')
    rw [joinTok_cons]
    show splitAux (t ++ _) [] = t :: ts'
    rw [splitAux_append_token t _ [] htnw, List.append_nil]
    have hrev : (t.reverse).isEmpty = false := by
      simp [List.isEmpty_iff, htne]
    by_cases hts : ts' = []
    · subst hts
      rw [if_pos rfl]
      rw [show splitAux [] t.reverse = [t.reverse.reverse] by simp [splitAux, hrev]]
      rw [List.reverse_reverse]
    · rw [if_neg hts]
      rw [show splitAux (' ' :: joinTok ts') t.reverse
          = t.reverse.reverse :: splitAux (joinTok ts') [] by
        simp [splitAux, hrev, isWsChar]]
      rw [List.reverse_reverse]
      rw [show splitAux (joinTok ts') [] = pySplit (joinTok ts') from rfl]
      rw [ih (fun u hu => hne u (List.mem_cons_of_mem t hu))
            (fun u hu => hnw u (List.mem_cons_of_mem t hu))]

/-- C7 (amended): `normalize_text` is pure (a function of its input alone in
this embedding) and idempotent on every *string* input. -/
theorem normalize_text_idempotent_str (s : String) :
    normalize_text (.str (normalize_text (.str s))) = normalize_text (.str s) := by
  refine congrArg String.mk ?_
  show normChars (normChars s.data) = normChars s.data
  rw [show normChars (normChars s.data)
      = joinTok (pySplit (((normChars s.data).map pyLowerChar).map subChar)) from rfl]
  rw [normChars_map_id]
  rw [show normChars s.data
      = joinTok (pySplit ((s.data.map pyLowerChar).map subChar)) from rfl]
  rw [pySplit_joinTok (pySplit ((s.data.map pyLowerChar).map subChar))
    (splitAux_ne_nil _ [])
    (splitAux_chars_not_ws _ [] (fun d hd => absurd hd (List.not_mem_nil d)))]

/-- Counterexample to C7 as stated: a non-string input is stringified but
*not* normalized (the early `return str(text)`), so idempotence fails on the
boolean `True`: `normalize(True) = "True"` while
`normalize(normalize(True)) = "true"`. -/
theorem normalize_text_not_idempotent :
    normalize_text (.str (normalize_text (.bool true))) ≠
      normalize_text (.bool true) := by
  decide
